import Mathlib

/-!
Verification development for the modal-bass-trainer repository.

The definitions below are a shallow embedding of the JavaScript source:

* `src/pitch-detector.js` — the `BassPitchDetector` class: `autoCorrelate`,
  `parabolicInterpolation`, `correlationAtOffset` and the decision core of
  `detectPitch`.
* `src/audio.js` — the `ModalAudioEngine` class: `getChordForBeat`,
  `scheduleNote` (its timing decision) and `nextNote`.
* `src/unnamed/part_000` (the application controller): `onPitchDetected`
  (the note-counting gate), `trackNote`, `updateStatsDisplay`,
  `showSessionSummary`, `resetSessionStats`.
* `src/modal-data.js` — the Dorian mode table (used by concrete scenarios).

Numbers are modelled by `Rat` (exact arithmetic standing for the source's
IEEE doubles), with one exception: the parabolic-interpolation step of the
pitch estimator divides by a quantity that can be zero, so the values that
flow out of it are modelled by `JSNum`, a rational extended with the
JavaScript special values `Infinity`, `-Infinity` and `NaN`, and the
subsequent arithmetic and comparisons follow JavaScript semantics on those
special values.  Time stamps (`Date.now()` values, milliseconds) are `Int`.
-/

/-- JavaScript number model: a finite (exact) rational, the two infinities,
or `NaN`. -/
inductive JSNum where
  | fin (q : ℚ)
  | inf
  | ninf
  | nan
deriving DecidableEq, Repr

namespace JSNum

/-- `a + x` for finite `a`, JavaScript semantics on the special values. -/
def addQ (a : ℚ) : JSNum → JSNum
  | fin b => fin (a + b)
  | inf => inf
  | ninf => ninf
  | nan => nan

/-- `n / d` for finite operands, JavaScript semantics: division by (positive)
zero gives a signed infinity, `0 / 0` gives `NaN`. -/
def divQQ (n d : ℚ) : JSNum :=
  if d = 0 then (if n = 0 then nan else if 0 < n then inf else ninf)
  else fin (n / d)

/-- `a / x` for finite numerator `a`: `a / ±Infinity = 0`, `a / NaN = NaN`,
`a / 0` is a signed infinity (or `NaN` when `a = 0`). -/
def divQJ (a : ℚ) : JSNum → JSNum
  | fin b => if b = 0 then (if a = 0 then nan else if 0 < a then inf else ninf)
             else fin (a / b)
  | inf => fin 0
  | ninf => fin 0
  | nan => nan

/-- JavaScript `x >= b` for finite `b`; any comparison with `NaN` is false. -/
def geQ : JSNum → ℚ → Bool
  | fin a, b => decide (b ≤ a)
  | inf, _ => true
  | ninf, _ => false
  | nan, _ => false

/-- JavaScript `x <= b` for finite `b`; any comparison with `NaN` is false. -/
def leQ : JSNum → ℚ → Bool
  | fin a, b => decide (a ≤ b)
  | inf, _ => false
  | ninf, _ => true
  | nan, _ => false

/-- JavaScript `x > b` for finite `b`; any comparison with `NaN` is false. -/
def gtQ : JSNum → ℚ → Bool
  | fin a, b => decide (b < a)
  | inf, _ => true
  | ninf, _ => false
  | nan, _ => false

end JSNum

/-! ## Mode data (`src/modal-data.js`) -/

/-- The `color` tag of an interval in a mode table. -/
inductive ToneColor where
  | stable
  | characteristic
  | neutral
  | avoid
  | passing
deriving DecidableEq, Repr

/-- One entry of a mode's `intervals` array. -/
structure ModeInterval where
  degree : String
  semitones : Int
  color : ToneColor
deriving DecidableEq, Repr

/-- One entry of a mode's `avoidNotes` array. -/
structure ModeAvoidNote where
  degree : String
  semitones : Int
deriving DecidableEq, Repr

/-- A mode definition; a missing `avoidNotes` field is the empty list. -/
structure ModeDef where
  name : String
  intervals : List ModeInterval
  avoidNotes : List ModeAvoidNote
deriving DecidableEq, Repr

/-- The Dorian mode table from `src/modal-data.js`. -/
def dorian : ModeDef :=
  { name := "Dorian"
    intervals :=
      [ ⟨"1", 0, ToneColor.stable⟩
      , ⟨"2", 2, ToneColor.neutral⟩
      , ⟨"b3", 3, ToneColor.neutral⟩
      , ⟨"4", 5, ToneColor.neutral⟩
      , ⟨"5", 7, ToneColor.stable⟩
      , ⟨"6", 9, ToneColor.characteristic⟩
      , ⟨"b7", 10, ToneColor.characteristic⟩ ]
    avoidNotes := [⟨"7", 11⟩] }

/-! ## Session statistics (`src/unnamed/part_000`, `trackNote` /
`resetSessionStats`) -/

/-- The `this.session` record of the application controller. -/
structure SessionStats where
  startTime : Int
  toneDistribution : List Nat
  totalNotes : Nat
  characteristicToneCount : Nat
  avoidToneCount : Nat
deriving DecidableEq, Repr

/-- `resetSessionStats`: fresh statistics (12 zero counters). -/
def resetSessionStats (now : Int) : SessionStats :=
  { startTime := now
    toneDistribution := List.replicate 12 0
    totalNotes := 0
    characteristicToneCount := 0
    avoidToneCount := 0 }

/-- `this.session.toneDistribution[i]++` for an index computed as an
integer.  The source indexes a 12-element array; an out-of-range index
(impossible for the inputs the claims quantify over, since the computed
index lies in `[0,11]`) is modelled as a no-op. -/
def incAt (l : List Nat) (i : Int) : List Nat :=
  if 0 ≤ i ∧ i.toNat < l.length then l.set i.toNat (l.getD i.toNat 0 + 1) else l

/-- `trackNote(midiNote)` from the application controller.  JavaScript's
`%` is truncated remainder, i.e. `Int.tmod`. -/
def trackNote (rootMidi : Int) (mode : ModeDef) (s : SessionStats)
    (midiNote : Int) : SessionStats :=
  let intervalFromRoot : Int := Int.tmod (midiNote - rootMidi + 120) 12
  let foundInterval := mode.intervals.find? (fun i => i.semitones == intervalFromRoot)
  let isAvoid := mode.avoidNotes.any (fun a => a.semitones == intervalFromRoot)
  { s with
    toneDistribution := incAt s.toneDistribution intervalFromRoot
    totalNotes := s.totalNotes + 1
    characteristicToneCount := s.characteristicToneCount +
      (match foundInterval with
       | some i => if i.color = ToneColor.characteristic then 1 else 0
       | none => 0)
    avoidToneCount := s.avoidToneCount + (if isAvoid then 1 else 0) }

/-! ## Groove sequencer and scheduler (`src/audio.js`) -/

/-- Recursion matching the `for` loop of `getChordForBeat`: `totalBeats`
accumulates durations; the first segment whose cumulative duration exceeds
`beatNumber` wins; falling off the end returns 0. -/
def getChordForBeatAux (beatNumber : ℚ) : ℚ → Nat → List ℚ → Nat
  | _, _, [] => 0
  | totalBeats, i, d :: rest =>
    if beatNumber < totalBeats + d then i
    else getChordForBeatAux beatNumber (totalBeats + d) (i + 1) rest

/-- `getChordForBeat(beatNumber)`; the chord list is represented by its
`duration` fields, which is all the function reads. -/
def getChordForBeat (durations : List ℚ) (beatNumber : ℚ) : Nat :=
  getChordForBeatAux beatNumber 0 0 durations

/-- The prepared groove fields read by the scheduling decisions:
`chords[i].duration`, `pattern`, `swing`. -/
structure PreparedGroove where
  durations : List ℚ
  pattern : List Nat
  swing : Bool
deriving DecidableEq, Repr

/-- The timing decision of `scheduleNote(beatNumber, time)`: if the beat is
active in the pattern, the chosen chord index and the audible start time
`time + swingOffset` (swing offset `(60 / tempo) * 0.15` on odd beats when
the groove swings); an inactive beat plays nothing. -/
def scheduleNote (g : PreparedGroove) (tempo : ℚ) (beatNumber : Nat)
    (time : ℚ) : Option (Nat × ℚ) :=
  let patternIndex := beatNumber % g.pattern.length
  if g.pattern.getD patternIndex 0 = 1 then
    let chordIndex := getChordForBeat g.durations (beatNumber : ℚ)
    let swingOffset : ℚ :=
      if g.swing ∧ beatNumber % 2 = 1 then (60 / tempo) * (15 / 100) else 0
    some (chordIndex, time + swingOffset)
  else none

/-- The scheduler transport state: `nextNoteTime` and `currentBeat`. -/
structure SchedState where
  nextNoteTime : ℚ
  currentBeat : Nat
deriving DecidableEq, Repr

/-- `nextNote()`: advance the nominal time by `60 / tempo` seconds and the
beat index by one, wrapping at the chord cycle length. -/
def nextNote (tempo : ℚ) (durations : List ℚ) (st : SchedState) : SchedState :=
  let secondsPerBeat : ℚ := 60 / tempo
  let t := st.nextNoteTime + secondsPerBeat
  let b := st.currentBeat + 1
  let totalBeats := durations.sum
  if (b : ℚ) ≥ totalBeats then ⟨t, 0⟩ else ⟨t, b⟩

/-! ## Pitch estimator (`src/pitch-detector.js`) -/

/-- The detector configuration fields read by `autoCorrelate` and
`detectPitch`. -/
structure PdConfig where
  sampleRate : ℚ
  minFrequency : ℚ
  maxFrequency : ℚ
  threshold : ℚ
  confidenceThreshold : ℚ
  detectionCooldown : Int
deriving DecidableEq, Repr

/-- `correlationAtOffset(buffer, offset, maxSamples)`:
`1 - (sum of |buffer[i] - buffer[i+offset]| for i < maxSamples) / maxSamples`.
All accesses are in bounds for the offsets the estimator scans. -/
def correlationAtOffset (buffer : List ℚ) (offset : Nat) (maxSamples : Nat) : ℚ :=
  let s := ((List.range maxSamples).map
    (fun i => |buffer.getD i 0 - buffer.getD (i + offset) 0|)).sum
  1 - s / (maxSamples : ℚ)

/-- The mutable locals of the correlation scan loop: `bestOffset`
(`-1` when no good correlation has been recorded, as in the source),
`bestCorrelation`, `foundGoodCorrelation`. -/
structure ScanState where
  bestOffset : Int
  bestCorrelation : ℚ
  foundGoodCorrelation : Bool
deriving DecidableEq, Repr

/-- The `for offset` loop of `autoCorrelate`: record the best score among
lags whose score exceeds `0.9`; once a good score is followed by a score at
or below `0.9` the loop breaks. -/
def scanLoop (buffer : List ℚ) (maxSamples : Nat) :
    List Nat → ScanState → ScanState
  | [], s => s
  | offset :: rest, s =>
    let c := correlationAtOffset buffer offset maxSamples
    if c > 9/10 then
      let s2 := if c > s.bestCorrelation
        then { bestOffset := (offset : Int), bestCorrelation := c,
               foundGoodCorrelation := true }
        else { s with foundGoodCorrelation := true }
      scanLoop buffer maxSamples rest s2
    else if s.foundGoodCorrelation then s
    else scanLoop buffer maxSamples rest s

/-- The value `autoCorrelate` returns: a frequency (a `JSNum`, since it is
produced by a division whose denominator may be zero or non-finite) and a
confidence.  "No detection" is `{frequency: -1, confidence: 0}`. -/
structure AcResult where
  frequency : JSNum
  confidence : ℚ
deriving DecidableEq, Repr

/-- The `{frequency: -1, confidence: 0}` result of `autoCorrelate`. -/
def noAcResult : AcResult := ⟨JSNum.fin (-1), 0⟩

/-- The tail of `autoCorrelate`: `frequency = sampleRate / refinedOffset`,
accepted only when `minFrequency <= frequency <= maxFrequency` (JavaScript
comparisons, hence false on `NaN`). -/
def acceptFrequency (cfg : PdConfig) (refinedOffset : JSNum)
    (bestCorrelation : ℚ) : AcResult :=
  let frequency := JSNum.divQJ cfg.sampleRate refinedOffset
  if frequency.geQ cfg.minFrequency && frequency.leQ cfg.maxFrequency then
    ⟨frequency, bestCorrelation⟩
  else noAcResult

/-- `parabolicInterpolation(buffer, offset, maxSamples)`: for an interior
offset, `offset + (prev - next) / (2 * (prev - 2*curr + next))` with
JavaScript division (the denominator may be zero, giving an infinity or
`NaN`); boundary offsets are returned unchanged. -/
def parabolicInterpolation (buffer : List ℚ) (offset : Nat)
    (maxSamples : Nat) : JSNum :=
  if offset < 1 ∨ maxSamples - 1 ≤ offset then JSNum.fin (offset : ℚ)
  else
    let prev := correlationAtOffset buffer (offset - 1) maxSamples
    let curr := correlationAtOffset buffer offset maxSamples
    let next := correlationAtOffset buffer (offset + 1) maxSamples
    JSNum.addQ (offset : ℚ)
      (JSNum.divQQ (prev - next) (2 * (prev - 2 * curr + next)))

/-- `autoCorrelate(buffer)`.  The source computes
`rms = sqrt(meanSquare)` and rejects when `rms < 0.01`; both sides being
nonnegative this is exactly `meanSquare < 1/10000`, which keeps the
definition inside exact rational arithmetic. -/
def autoCorrelate (cfg : PdConfig) (buffer : List ℚ) : AcResult :=
  let size := buffer.length
  let maxSamples := size / 2
  let meanSquare := (buffer.map (fun v => v * v)).sum / (size : ℚ)
  if meanSquare < 1/10000 then noAcResult
  else
    let minOffset := (Int.floor (cfg.sampleRate / cfg.maxFrequency)).toNat
    let maxOffset := (Int.floor (cfg.sampleRate / cfg.minFrequency)).toNat
    let hi := min maxOffset maxSamples
    let offsets := List.range' minOffset (hi - minOffset)
    let s := scanLoop buffer maxSamples offsets ⟨-1, 0, false⟩
    if 1/100 < s.bestCorrelation ∧ s.bestOffset ≠ -1 then
      acceptFrequency cfg
        (parabolicInterpolation buffer s.bestOffset.toNat maxSamples)
        s.bestCorrelation
    else noAcResult

/-- The detector state read and written by the decision core of
`detectPitch`: `lastDetectionTime` (initially `0`). -/
structure DetectorState where
  lastDetectionTime : Int
deriving DecidableEq, Repr

/-- The decision core of one `detectPitch` tick: level gate, then
`autoCorrelate`, then `frequency > 0 && confidence > confidenceThreshold`,
then the delivery cooldown `now - lastDetectionTime > detectionCooldown`.
On delivery the callback payload is the `AcResult` (the note-name
conversion is a pure rendering of the frequency and is outside the claims)
and `lastDetectionTime` is updated; otherwise state is unchanged.  The
measured level (a logarithm in the source's `calculateRMS`) is taken as an
input; the claims quantify over all level values. -/
def detectTick (cfg : PdConfig) (level : ℚ) (buffer : List ℚ) (now : Int)
    (st : DetectorState) : Option AcResult × DetectorState :=
  if cfg.threshold < level then
    let result := autoCorrelate cfg buffer
    if result.frequency.gtQ 0 && decide (cfg.confidenceThreshold < result.confidence) then
      if cfg.detectionCooldown < now - st.lastDetectionTime then
        (some result, ⟨now⟩)
      else (none, st)
    else (none, st)
  else (none, st)

/-! ## Note-counting gate (`src/unnamed/part_000`, `onPitchDetected`) -/

/-- The application-controller state the counting gate reads and writes. -/
structure AppGateState where
  lastCountedMIDI : Option Int
  lastNoteTime : Option Int
  session : SessionStats
deriving DecidableEq, Repr

/-- The counting decision and state update of `onPitchDetected`: count iff
`timeSinceLastNote >= 400` (with `Infinity` when nothing was counted yet —
the source tests `this.lastNoteTime ?`, a truthiness check, so a recorded
timestamp of exactly 0 also yields `Infinity`) and the pitch class
(`midiNote % 12`, JavaScript remainder) differs from the last counted one
(or none was counted).  On counting, `trackNote` runs and both gate fields
are updated.  Returns the new state and whether the detection was
counted. -/
def onPitchDetectedStep (rootMidi : Int) (mode : ModeDef) (st : AppGateState)
    (midiNote : Int) (now : Int) : AppGateState × Bool :=
  let timeGatePassed : Bool :=
    match st.lastNoteTime with
    | none => true
    | some t => if t = 0 then true else decide ((400 : Int) ≤ now - t)
  let pitchClassChanged : Bool :=
    match st.lastCountedMIDI with
    | none => true
    | some last => !(Int.tmod midiNote 12 == Int.tmod last 12)
  let shouldCount := timeGatePassed && pitchClassChanged
  if shouldCount then
    ({ lastCountedMIDI := some midiNote
       lastNoteTime := some now
       session := trackNote rootMidi mode st.session midiNote }, true)
  else (st, false)

/-! ## Statistics read queries (`src/unnamed/part_000`) -/

/-- The percentages `updateStatsDisplay` renders. -/
structure StatsDisplay where
  totalNotes : Nat
  characteristicPct : ℚ
  stablePct : ℚ
  avoidPct : ℚ
deriving DecidableEq, Repr

/-- `updateStatsDisplay()`: leaves the panel unchanged (`none`) unless the
session is playing and has at least one counted note; otherwise renders the
three percentages. -/
def updateStatsDisplay (isPlaying : Bool) (s : SessionStats) :
    Option StatsDisplay :=
  if !isPlaying || s.totalNotes == 0 then none
  else
    let characteristicPct := (s.characteristicToneCount : ℚ) / (s.totalNotes : ℚ) * 100
    let avoidPct := (s.avoidToneCount : ℚ) / (s.totalNotes : ℚ) * 100
    let stableTones := s.toneDistribution.getD 0 0 + s.toneDistribution.getD 7 0
    let stablePct := (stableTones : ℚ) / (s.totalNotes : ℚ) * 100
    some ⟨s.totalNotes, characteristicPct, stablePct, avoidPct⟩

/-- What `showSessionSummary` renders: the no-notes message, or a summary
with the most-used interval and the two percentages. -/
inductive SummaryOutput where
  | noNotes
  | summary (totalNotes : Nat) (maxInterval : Nat)
      (characteristicPct : ℚ) (avoidPct : ℚ)
deriving DecidableEq, Repr

/-- `showSessionSummary()`: the no-notes message when `totalNotes == 0`,
otherwise the summary (most-used interval via `indexOf(max(...))`, then the
percentage divisions). -/
def showSessionSummary (s : SessionStats) : SummaryOutput :=
  if s.totalNotes == 0 then SummaryOutput.noNotes
  else
    let maxVal := s.toneDistribution.foldr max 0
    let maxInterval := s.toneDistribution.indexOf maxVal
    let characteristicPct := (s.characteristicToneCount : ℚ) / (s.totalNotes : ℚ) * 100
    let avoidPct := (s.avoidToneCount : ℚ) / (s.totalNotes : ℚ) * 100
    SummaryOutput.summary s.totalNotes maxInterval characteristicPct avoidPct

/-! ## Shared concrete inputs used by witnesses and counterexamples -/

/-- A small detector configuration used by concrete runs: sample rate 4,
band `[2, 4]`, level threshold `-50`, confidence threshold `0.85`,
cooldown 50 ms. -/
def cfg0 : PdConfig := ⟨4, 2, 4, -50, 17/20, 50⟩

/-- A constant buffer of length 4: the estimator scans only lag 1, scores
it 1, and accepts frequency 4 with confidence 1. -/
def buf0 : List ℚ := [1/10, 1/10, 1/10, 1/10]

/-- A constant buffer of length 6: every correlation equals 1, so the
parabolic interpolation hits a zero denominator (`0/0`, i.e. `NaN`). -/
def ones6 : List ℚ := List.replicate 6 1

/-! ## Lemmas about `getChordForBeat` -/

theorem getChordForBeatAux_wrap (beat : ℚ) :
    ∀ (l : List ℚ) (acc : ℚ) (i : Nat), (∀ d ∈ l, 0 < d) →
      acc + l.sum ≤ beat → getChordForBeatAux beat acc i l = 0
  | [], _, _, _, _ => rfl
  | d :: rest, acc, i, hpos, hle => by
    have hrest : (0:ℚ) ≤ rest.sum :=
      List.sum_nonneg (fun x hx => le_of_lt (hpos x (List.mem_cons_of_mem _ hx)))
    have hsum : acc + (d :: rest).sum = (acc + d) + rest.sum := by
      simp [List.sum_cons]; ring
    have hnd : ¬ beat < acc + d := by
      rw [hsum] at hle; push_neg; linarith
    simp only [getChordForBeatAux, if_neg hnd]
    exact getChordForBeatAux_wrap beat rest (acc + d) (i + 1)
      (fun x hx => hpos x (List.mem_cons_of_mem _ hx)) (by rw [hsum] at hle; linarith)

theorem getChordForBeatAux_find (beat : ℚ) :
    ∀ (l : List ℚ) (acc : ℚ) (i : Nat), acc ≤ beat → beat < acc + l.sum →
      ∃ j, getChordForBeatAux beat acc i l = i + j ∧
        acc + (l.take j).sum ≤ beat ∧ beat < acc + (l.take (j + 1)).sum
  | [], acc, i, hacc, hlt => by simp at hlt; linarith
  | d :: rest, acc, i, hacc, hlt => by
    by_cases h : beat < acc + d
    · refine ⟨0, ?_, ?_, ?_⟩
      · simp [getChordForBeatAux, if_pos h]
      · simpa using hacc
      · simpa using h
    · push_neg at h
      have hlt2 : beat < (acc + d) + rest.sum := by
        simp [List.sum_cons] at hlt; linarith
      obtain ⟨j, hj, hlo, hhi⟩ :=
        getChordForBeatAux_find beat rest (acc + d) (i + 1) h hlt2
      refine ⟨j + 1, ?_, ?_, ?_⟩
      · simp only [getChordForBeatAux, if_neg (not_lt.mpr h)]
        omega
      · simp only [List.take_succ_cons, List.sum_cons]
        linarith
      · simp only [List.take_succ_cons, List.sum_cons]
        linarith

/-- C3: for a non-empty segment list with positive durations and a
non-negative beat index, `getChordForBeat` returns the first segment whose
cumulative duration exceeds the beat index (characterised by its prefix
sums), wraps to segment 0 at or past the cycle length, and realises the
`[2,2]` example of the specification. -/
theorem chordForBeat_spec (ds : List ℚ) (beat : ℚ)
    (hne : ds ≠ []) (hpos : ∀ d ∈ ds, 0 < d) (hbeat : 0 ≤ beat) :
    (ds.sum ≤ beat → getChordForBeat ds beat = 0) ∧
    (beat < ds.sum → ∃ j, getChordForBeat ds beat = j ∧
        (ds.take j).sum ≤ beat ∧ beat < (ds.take (j + 1)).sum) ∧
    (getChordForBeat [(2:ℚ), 2] 0 = 0 ∧ getChordForBeat [(2:ℚ), 2] 1 = 0 ∧
     getChordForBeat [(2:ℚ), 2] 2 = 1 ∧ getChordForBeat [(2:ℚ), 2] 3 = 1 ∧
     getChordForBeat [(2:ℚ), 2] 4 = 0) := by
  refine ⟨?_, ?_, by norm_num [getChordForBeat, getChordForBeatAux],
    by norm_num [getChordForBeat, getChordForBeatAux],
    by norm_num [getChordForBeat, getChordForBeatAux],
    by norm_num [getChordForBeat, getChordForBeatAux],
    by norm_num [getChordForBeat, getChordForBeatAux]⟩
  · intro hwrap
    exact getChordForBeatAux_wrap beat ds 0 0 hpos (by linarith)
  · intro hin
    obtain ⟨j, hj, hlo, hhi⟩ :=
      getChordForBeatAux_find beat ds 0 0 hbeat (by linarith)
    exact ⟨j, by simpa [getChordForBeat] using hj, by linarith, by linarith⟩

/-- Witness for `chordForBeat_spec` at segments `[2,2]`, beat 4. -/
theorem chordForBeat_spec_witness : getChordForBeat [(2:ℚ), 2] 4 = 0 :=
  (chordForBeat_spec [(2:ℚ), 2] 4 (by simp) (by norm_num) (by norm_num)).1
    (by norm_num)

/-- C4: successive nominal beat times differ by exactly `60 / tempo`
seconds; when a beat is audible, its start time is the nominal time plus
`(60 / tempo) * 0.15` exactly when the groove swings and the beat index is
odd, and the unmodified nominal time otherwise; at 100 BPM these are
`0.6 s` and `0.09 s`. -/
theorem scheduler_timing_spec :
    (∀ (tempo : ℚ) (ds : List ℚ) (st : SchedState),
        (nextNote tempo ds st).nextNoteTime = st.nextNoteTime + 60 / tempo) ∧
    (∀ (g : PreparedGroove) (tempo : ℚ) (beat : Nat) (time : ℚ)
        (ci : Nat) (pt : ℚ), scheduleNote g tempo beat time = some (ci, pt) →
        ((g.swing = true ∧ beat % 2 = 1) →
            pt = time + (60 / tempo) * (15 / 100)) ∧
        ((g.swing = false ∨ beat % 2 = 0) → pt = time)) ∧
    ((60 : ℚ) / 100 = 3 / 5 ∧ ((60 : ℚ) / 100) * (15 / 100) = 9 / 100) := by
  refine ⟨?_, ?_, by norm_num, by norm_num⟩
  · intro tempo ds st
    simp only [nextNote]
    split <;> rfl
  · intro g tempo beat time ci pt h
    simp only [scheduleNote] at h
    split at h
    · simp only [Option.some.injEq, Prod.mk.injEq] at h
      obtain ⟨-, hpt⟩ := h
      constructor
      · rintro ⟨hs, hodd⟩
        rw [← hpt]
        rw [if_pos ⟨by simp [hs], hodd⟩]
      · rintro (hs | heven)
        · rw [← hpt, if_neg (by simp [hs]), add_zero]
        · rw [← hpt, if_neg (by omega), add_zero]
    · exact absurd h (by simp)

/-- Witness for `scheduler_timing_spec`: a swinging groove at 100 BPM plays
its odd beat 1 exactly `0.09 s` after the nominal time. -/
theorem scheduler_timing_spec_witness :
    scheduleNote ⟨[2, 2], [1, 1, 1, 1], true⟩ 100 1 0 = some (0, 9 / 100) ∧
    (9 / 100 : ℚ) = 0 + (60 / 100) * (15 / 100) := by
  have h : scheduleNote ⟨[2, 2], [1, 1, 1, 1], true⟩ 100 1 0 = some (0, 9 / 100) := by
    norm_num [scheduleNote, getChordForBeat, getChordForBeatAux]
  refine ⟨h, ?_⟩
  have := (scheduler_timing_spec.2.1 ⟨[2, 2], [1, 1, 1, 1], true⟩ 100 1 0 0 (9 / 100) h).1
    ⟨rfl, rfl⟩
  linarith [this]

/-! ## Lemmas about the autocorrelation estimator -/

theorem correlationAtOffset_le_one (buffer : List ℚ) (offset m : Nat) :
    correlationAtOffset buffer offset m ≤ 1 := by
  unfold correlationAtOffset
  have hs : (0:ℚ) ≤ ((List.range m).map
      (fun i => |buffer.getD i 0 - buffer.getD (i + offset) 0|)).sum :=
    List.sum_nonneg (by
      intro x hx
      obtain ⟨i, -, rfl⟩ := List.mem_map.mp hx
      exact abs_nonneg _)
  have : (0:ℚ) ≤ ((List.range m).map
      (fun i => |buffer.getD i 0 - buffer.getD (i + offset) 0|)).sum / (m : ℚ) :=
    div_nonneg hs (by positivity)
  linarith

/-- The invariant the correlation scan maintains: a recorded best offset
means the best score exceeds `0.9`, and the best score never exceeds 1. -/
def ScanInv (s : ScanState) : Prop :=
  (s.bestOffset ≠ -1 → 9/10 < s.bestCorrelation) ∧
    0 ≤ s.bestCorrelation ∧ s.bestCorrelation ≤ 1

theorem scanLoop_inv (buffer : List ℚ) (m : Nat) :
    ∀ (l : List Nat) (s : ScanState), ScanInv s →
      ScanInv (scanLoop buffer m l s)
  | [], _, hs => hs
  | offset :: rest, s, hs => by
    simp only [scanLoop]
    split
    · rename_i hgt
      split
      · exact scanLoop_inv buffer m rest _
          ⟨fun _ => hgt, by linarith, correlationAtOffset_le_one buffer offset m⟩
      · exact scanLoop_inv buffer m rest _
          ⟨fun ho => hs.1 ho, hs.2.1, hs.2.2⟩
    · split
      · exact hs
      · exact scanLoop_inv buffer m rest s hs

/-- A value that passes both JavaScript band comparisons is a finite
rational inside the band. -/
theorem JSNum.finite_of_geQ_leQ {f : JSNum} {b c : ℚ}
    (hge : f.geQ b = true) (hle : f.leQ c = true) :
    ∃ q, f = JSNum.fin q ∧ b ≤ q ∧ q ≤ c := by
  cases f with
  | fin q => exact ⟨q, rfl, of_decide_eq_true hge, of_decide_eq_true hle⟩
  | inf => simp [JSNum.leQ] at hle
  | ninf => simp [JSNum.geQ] at hge
  | nan => simp [JSNum.geQ] at hge

/-- Case analysis of the acceptance tail of `autoCorrelate`. -/
theorem acceptFrequency_cases (cfg : PdConfig) (r : JSNum) (bc : ℚ) :
    acceptFrequency cfg r bc = noAcResult ∨
    ∃ q, acceptFrequency cfg r bc = ⟨JSNum.fin q, bc⟩ ∧
      cfg.minFrequency ≤ q ∧ q ≤ cfg.maxFrequency := by
  unfold acceptFrequency
  dsimp only
  split
  · rename_i h
    rw [Bool.and_eq_true] at h
    obtain ⟨q, hq, h1, h2⟩ := JSNum.finite_of_geQ_leQ h.1 h.2
    exact Or.inr ⟨q, by rw [hq], h1, h2⟩
  · exact Or.inl rfl

/-- Case analysis of `autoCorrelate`: the result is the no-detection value,
or a finite frequency inside the configured band with confidence in
`(0.9, 1]`. -/
theorem autoCorrelate_cases (cfg : PdConfig) (buffer : List ℚ) :
    autoCorrelate cfg buffer = noAcResult ∨
    ∃ (q bc : ℚ), autoCorrelate cfg buffer = ⟨JSNum.fin q, bc⟩ ∧
      cfg.minFrequency ≤ q ∧ q ≤ cfg.maxFrequency ∧ 9/10 < bc ∧ bc ≤ 1 := by
  unfold autoCorrelate
  dsimp only
  split
  · exact Or.inl rfl
  · have hinv := scanLoop_inv buffer (buffer.length / 2)
      (List.range' ((Int.floor (cfg.sampleRate / cfg.maxFrequency)).toNat)
        (min ((Int.floor (cfg.sampleRate / cfg.minFrequency)).toNat)
          (buffer.length / 2) -
          (Int.floor (cfg.sampleRate / cfg.maxFrequency)).toNat))
      ⟨-1, 0, false⟩ ⟨by simp, le_refl 0, by norm_num⟩
    set sres := scanLoop buffer (buffer.length / 2)
      (List.range' ((Int.floor (cfg.sampleRate / cfg.maxFrequency)).toNat)
        (min ((Int.floor (cfg.sampleRate / cfg.minFrequency)).toNat)
          (buffer.length / 2) -
          (Int.floor (cfg.sampleRate / cfg.maxFrequency)).toNat))
      ⟨-1, 0, false⟩ with hsres
    split
    · rename_i hcond
      have hbc : 9/10 < sres.bestCorrelation := hinv.1 hcond.2
      have hbc1 : sres.bestCorrelation ≤ 1 := hinv.2.2
      rcases acceptFrequency_cases cfg
          (parabolicInterpolation buffer sres.bestOffset.toNat (buffer.length / 2))
          sres.bestCorrelation with h | ⟨q, heq, h1, h2⟩
      · exact Or.inl h
      · exact Or.inr ⟨q, sres.bestCorrelation, heq, h1, h2, hbc, hbc1⟩
    · exact Or.inl rfl

/-- Concrete run: on the constant buffer `buf0` the estimator accepts lag 1
with score 1, i.e. frequency 4 and confidence 1. -/
theorem autoCorrelate_cfg0_buf0 : autoCorrelate cfg0 buf0 = ⟨JSNum.fin 4, 1⟩ := by
  norm_num [autoCorrelate, cfg0, buf0, scanLoop, correlationAtOffset,
    acceptFrequency, parabolicInterpolation, JSNum.divQJ, JSNum.geQ, JSNum.leQ,
    List.range', List.range_succ, List.getD]

/-- Concrete run: a tick at time 1000 (state 0, level 0) delivers the
detection and updates the cooldown state. -/
theorem detectTick_cfg0_buf0_1000 :
    detectTick cfg0 0 buf0 1000 ⟨0⟩ = (some ⟨JSNum.fin 4, 1⟩, ⟨1000⟩) := by
  simp only [detectTick, autoCorrelate_cfg0_buf0]
  norm_num [cfg0, JSNum.gtQ]

/-- C2: every result of `autoCorrelate` is either the no-detection value or
carries a finite frequency inside `[minFrequency, maxFrequency]` and a
confidence in `[0,1]`; and a detection is delivered by the detection tick
only when its confidence exceeds `confidenceThreshold` (and then it also
lies in the band with confidence in `[0,1]`). -/
theorem estimator_band_and_delivery_spec :
    (∀ (cfg : PdConfig) (buffer : List ℚ),
        autoCorrelate cfg buffer = noAcResult ∨
        ∃ q : ℚ, (autoCorrelate cfg buffer).frequency = JSNum.fin q ∧
          cfg.minFrequency ≤ q ∧ q ≤ cfg.maxFrequency ∧
          0 ≤ (autoCorrelate cfg buffer).confidence ∧
          (autoCorrelate cfg buffer).confidence ≤ 1) ∧
    (∀ (cfg : PdConfig) (level : ℚ) (buffer : List ℚ) (now : Int)
        (st : DetectorState) (r : AcResult),
        (detectTick cfg level buffer now st).1 = some r →
        (∃ q : ℚ, r.frequency = JSNum.fin q ∧
            cfg.minFrequency ≤ q ∧ q ≤ cfg.maxFrequency) ∧
          0 ≤ r.confidence ∧ r.confidence ≤ 1 ∧
          cfg.confidenceThreshold < r.confidence) := by
  constructor
  · intro cfg buffer
    rcases autoCorrelate_cases cfg buffer with h | ⟨q, bc, heq, h1, h2, h3, h4⟩
    · exact Or.inl h
    · exact Or.inr ⟨q, by rw [heq], h1, h2, by rw [heq]; dsimp; linarith,
        by rw [heq]; exact h4⟩
  · intro cfg level buffer now st r hr
    unfold detectTick at hr
    split at hr
    · dsimp only at hr
      split at hr
      · rename_i hcheck
        rw [Bool.and_eq_true, decide_eq_true_eq] at hcheck
        split at hr
        · simp only [Option.some.injEq] at hr
          subst hr
          rcases autoCorrelate_cases cfg buffer with h | ⟨q, bc, heq, h1, h2, h3, h4⟩
          · rw [h] at hcheck
            exact absurd hcheck.1 (by simp [noAcResult, JSNum.gtQ])
          · rw [heq]
            rw [heq] at hcheck
            exact ⟨⟨q, rfl, h1, h2⟩, by dsimp; linarith, h4, hcheck.2⟩
        · exact absurd hr (by simp)
      · exact absurd hr (by simp)
    · exact absurd hr (by simp)

/-- Witness for `estimator_band_and_delivery_spec`: the delivered concrete
detection on `buf0` is in band with confidence 1. -/
theorem estimator_band_and_delivery_spec_witness :
    (∃ q : ℚ, (AcResult.mk (JSNum.fin 4) 1).frequency = JSNum.fin q ∧
        cfg0.minFrequency ≤ q ∧ q ≤ cfg0.maxFrequency) ∧
      0 ≤ (AcResult.mk (JSNum.fin 4) 1).confidence ∧
      (AcResult.mk (JSNum.fin 4) 1).confidence ≤ 1 ∧
      cfg0.confidenceThreshold < (AcResult.mk (JSNum.fin 4) 1).confidence :=
  estimator_band_and_delivery_spec.2 cfg0 0 buf0 1000 ⟨0⟩ ⟨JSNum.fin 4, 1⟩
    (by rw [detectTick_cfg0_buf0_1000])

/-- C9: a non-none result of `autoCorrelate` (equivalently, one with
non-zero confidence) always has confidence strictly above `0.9`, because
the best correlation is only recorded among lags whose score exceeds the
fixed `0.9` threshold; hence for any `confidenceThreshold` at or below
`0.9` the delivery check never rejects a result the autocorrelation step
accepted. -/
theorem confidence_above_point_nine_spec (cfg : PdConfig) (buffer : List ℚ) :
    ((autoCorrelate cfg buffer).confidence ≠ 0 →
        9/10 < (autoCorrelate cfg buffer).confidence) ∧
    (cfg.confidenceThreshold ≤ 9/10 →
        (autoCorrelate cfg buffer).confidence ≠ 0 →
        cfg.confidenceThreshold < (autoCorrelate cfg buffer).confidence) := by
  have key : (autoCorrelate cfg buffer).confidence ≠ 0 →
      9/10 < (autoCorrelate cfg buffer).confidence := by
    intro hne
    rcases autoCorrelate_cases cfg buffer with h | ⟨q, bc, heq, h1, h2, h3, h4⟩
    · rw [h] at hne
      exact absurd rfl hne
    · rw [heq]
      rw [heq] at hne
      exact h3
  exact ⟨key, fun hth hne => lt_of_le_of_lt hth (key hne)⟩

/-- Witness for `confidence_above_point_nine_spec` on the concrete
accepting run. -/
theorem confidence_above_point_nine_spec_witness :
    cfg0.confidenceThreshold < (autoCorrelate cfg0 buf0).confidence :=
  (confidence_above_point_nine_spec cfg0 buf0).2
    (by norm_num [cfg0])
    (by rw [autoCorrelate_cfg0_buf0]; norm_num)

/-- C10: the estimator never propagates a non-finite frequency to the
caller: (1) the frequency field of every `autoCorrelate` result is a finite
rational; (2) whenever the refined lag is not a positive finite value —
in particular `NaN` or an infinity from a zero interpolation denominator,
or a non-positive lag — the acceptance step rejects `sampleRate/refinedLag`
by the band check and returns the `{frequency: -1, confidence: 0}` result
(for a positive sample rate and positive `minFrequency`); (3) a zero
parabolic-interpolation denominator at an interior offset always yields a
non-finite refined lag. -/
theorem estimator_finite_frequency_spec :
    (∀ (cfg : PdConfig) (buffer : List ℚ), ∃ q : ℚ,
        (autoCorrelate cfg buffer).frequency = JSNum.fin q) ∧
    (∀ (cfg : PdConfig) (r : JSNum) (bc : ℚ),
        0 < cfg.sampleRate → 0 < cfg.minFrequency →
        (∀ q : ℚ, r = JSNum.fin q → q ≤ 0) →
        acceptFrequency cfg r bc = noAcResult) ∧
    (∀ (buffer : List ℚ) (offset m : Nat),
        1 ≤ offset → offset < m - 1 →
        2 * (correlationAtOffset buffer (offset - 1) m
              - 2 * correlationAtOffset buffer offset m
              + correlationAtOffset buffer (offset + 1) m) = 0 →
        ∀ q : ℚ, parabolicInterpolation buffer offset m ≠ JSNum.fin q) := by
  refine ⟨?_, ?_, ?_⟩
  · intro cfg buffer
    rcases autoCorrelate_cases cfg buffer with h | ⟨q, bc, heq, -, -, -, -⟩
    · exact ⟨-1, by rw [h]; rfl⟩
    · exact ⟨q, by rw [heq]⟩
  · intro cfg r bc hs hminF hnp
    unfold acceptFrequency
    dsimp only
    cases r with
    | fin q =>
      have hq : q ≤ 0 := hnp q rfl
      rcases eq_or_lt_of_le hq with hq0 | hqneg
      · subst hq0
        have hfreq : JSNum.divQJ cfg.sampleRate (JSNum.fin 0) = JSNum.inf := by
          simp [JSNum.divQJ, ne_of_gt hs, hs]
        rw [hfreq]
        simp [JSNum.geQ, JSNum.leQ]
      · have hfreq : JSNum.divQJ cfg.sampleRate (JSNum.fin q) =
            JSNum.fin (cfg.sampleRate / q) := by
          simp [JSNum.divQJ, ne_of_lt hqneg]
        rw [hfreq]
        have hdiv : cfg.sampleRate / q < cfg.minFrequency :=
          lt_trans (div_neg_of_pos_of_neg hs hqneg) hminF
        have hge : (JSNum.fin (cfg.sampleRate / q)).geQ cfg.minFrequency = false := by
          simp only [JSNum.geQ, decide_eq_false_iff_not, not_le]
          exact hdiv
        rw [if_neg (by rw [hge, Bool.false_and]; simp)]
    | inf =>
      have hge : (JSNum.divQJ cfg.sampleRate JSNum.inf).geQ cfg.minFrequency = false := by
        simp only [JSNum.divQJ, JSNum.geQ, decide_eq_false_iff_not, not_le]
        exact hminF
      rw [if_neg (by rw [hge, Bool.false_and]; simp)]
    | ninf =>
      have hge : (JSNum.divQJ cfg.sampleRate JSNum.ninf).geQ cfg.minFrequency = false := by
        simp only [JSNum.divQJ, JSNum.geQ, decide_eq_false_iff_not, not_le]
        exact hminF
      rw [if_neg (by rw [hge, Bool.false_and]; simp)]
    | nan =>
      rw [if_neg (by simp [JSNum.divQJ, JSNum.geQ])]
  · intro buffer offset m h1 h2 hdenom q
    unfold parabolicInterpolation
    rw [if_neg (by omega)]
    dsimp only
    rw [hdenom]
    unfold JSNum.divQQ
    rw [if_pos rfl]
    split
    · simp [JSNum.addQ]
    · split <;> simp [JSNum.addQ]

/-- Witness for `estimator_finite_frequency_spec`: a `NaN` refined lag is
rejected, and the constant buffer `ones6` produces a zero interpolation
denominator at offset 1, whose refined lag is not the finite value 1. -/
theorem estimator_finite_frequency_spec_witness :
    acceptFrequency cfg0 JSNum.nan 1 = noAcResult ∧
    parabolicInterpolation ones6 1 3 ≠ JSNum.fin 1 := by
  constructor
  · exact estimator_finite_frequency_spec.2.1 cfg0 JSNum.nan 1
      (by norm_num [cfg0]) (by norm_num [cfg0])
      (fun q h => by cases h)
  · exact estimator_finite_frequency_spec.2.2 ones6 1 3
      (by norm_num) (by norm_num)
      (by norm_num [correlationAtOffset, ones6, List.range_succ, List.getD]) 1

/-- C7 (amended): the detection cooldown is measured from the previous
*delivered* detection, not the previous raw one: a tick arriving at most
`detectionCooldown` ms after the last delivered detection delivers nothing
and leaves the detector state unchanged, and every delivered detection
arrives strictly more than `detectionCooldown` ms after the previously
delivered one. -/
theorem detectionCooldown_spec (cfg : PdConfig) (level : ℚ) (buffer : List ℚ)
    (st : DetectorState) (now : Int) :
    (now - st.lastDetectionTime ≤ cfg.detectionCooldown →
        detectTick cfg level buffer now st = (none, st)) ∧
    (∀ r st2, detectTick cfg level buffer now st = (some r, st2) →
        cfg.detectionCooldown < now - st.lastDetectionTime ∧
        st2 = ⟨now⟩) := by
  constructor
  · intro hcool
    unfold detectTick
    split
    · dsimp only
      split
      · rw [if_neg (by omega)]
      · rfl
    · rfl
  · intro r st2 heq
    unfold detectTick at heq
    split at heq
    · dsimp only at heq
      split at heq
      · split at heq
        · rename_i hcool
          exact ⟨hcool, (Prod.mk.injEq _ _ _ _ ▸ heq).2.symm ▸ rfl⟩
        · exact absurd heq (by simp)
      · exact absurd heq (by simp)
    · exact absurd heq (by simp)

/-- Witness for `detectionCooldown_spec`: at 30 ms after a delivery
(cooldown 50 ms) the tick is dropped and the state is unchanged. -/
theorem detectionCooldown_spec_witness :
    detectTick cfg0 0 buf0 1030 ⟨1000⟩ = (none, ⟨1000⟩) :=
  (detectionCooldown_spec cfg0 0 buf0 ⟨1000⟩ 1030).1 (by norm_num [cfg0])

/-- Counterexample to C7 as stated: with cooldown 50 ms, raw detections at
1000, 1030 and 1060 ms (each passing the level gate and the confidence
check) behave as follows: the one at 1030 is discarded, yet the one at
1060 — only 30 ms after the previous raw detection — is delivered, because
the code compares against the last *delivered* detection (1000), not the
last raw one (1030). -/
theorem detectionCooldown_claim_counterexample :
    cfg0.threshold < (0 : ℚ) ∧
    cfg0.confidenceThreshold < (autoCorrelate cfg0 buf0).confidence ∧
    (detectTick cfg0 0 buf0 1030 ⟨1000⟩).1 = none ∧
    ((detectTick cfg0 0 buf0 1060 ⟨1000⟩).1).isSome = true ∧
    (1060 : Int) - 1030 < cfg0.detectionCooldown := by
  refine ⟨by norm_num [cfg0], ?_, ?_, ?_, by norm_num [cfg0]⟩
  · rw [autoCorrelate_cfg0_buf0]
    norm_num [cfg0]
  · have h : detectTick cfg0 0 buf0 1030 ⟨1000⟩ = (none, ⟨1000⟩) := by
      simp only [detectTick, autoCorrelate_cfg0_buf0]
      norm_num [cfg0, JSNum.gtQ]
    rw [h]
  · have h : detectTick cfg0 0 buf0 1060 ⟨1000⟩ = (some ⟨JSNum.fin 4, 1⟩, ⟨1060⟩) := by
      simp only [detectTick, autoCorrelate_cfg0_buf0]
      norm_num [cfg0, JSNum.gtQ]
    rw [h]
    rfl

/-- C1: a detection reaching the counting gate is counted iff both the time
gate (400 ms in the code, `Infinity` when nothing was counted yet) has
elapsed since the last counted event and the pitch class differs from the
last counted one (or none was counted); in particular a same-pitch-class
detection 100 ms after a counted one is not counted, and a
changed-pitch-class detection 50 ms after a counted one is not counted
either. -/
theorem noteGate_conjunction_spec (root : Int) (mode : ModeDef)
    (st : AppGateState) (m now : Int) (hm : 0 ≤ m)
    (hlast : ∀ l, st.lastCountedMIDI = some l → 0 ≤ l)
    (hpos : ∀ t, st.lastNoteTime = some t → 0 < t) :
    ((onPitchDetectedStep root mode st m now).2 = true ↔
      ((st.lastNoteTime = none ∨ ∃ t, st.lastNoteTime = some t ∧ 400 ≤ now - t) ∧
       (st.lastCountedMIDI = none ∨
         ∃ l, st.lastCountedMIDI = some l ∧ m % 12 ≠ l % 12))) ∧
    (onPitchDetectedStep 62 dorian ⟨some 62, some 1000, resetSessionStats 0⟩ 74 1100).2
      = false ∧
    (onPitchDetectedStep 62 dorian ⟨some 62, some 1000, resetSessionStats 0⟩ 65 1050).2
      = false := by
  refine ⟨?_, by decide, by decide⟩
  unfold onPitchDetectedStep
  rcases hnt : st.lastNoteTime with _ | t <;>
    rcases hcm : st.lastCountedMIDI with _ | l <;> dsimp only
  · simp
  · have hl : 0 ≤ l := hlast l hcm
    rw [Int.tmod_eq_emod hm (by norm_num), Int.tmod_eq_emod hl (by norm_num)]
    split <;> rename_i hcond <;> simp_all
  · have ht : 0 < t := hpos t hnt
    simp only [if_neg (show ¬(t = 0) by omega)]
    split <;> rename_i hcond <;> simp_all
  · have hl : 0 ≤ l := hlast l hcm
    have ht : 0 < t := hpos t hnt
    simp only [if_neg (show ¬(t = 0) by omega)]
    rw [Int.tmod_eq_emod hm (by norm_num), Int.tmod_eq_emod hl (by norm_num)]
    split <;> rename_i hcond <;> simp_all

/-- Witness for `noteGate_conjunction_spec`: 500 ms after counting pitch
class 2, a detection of pitch class 5 is counted. -/
theorem noteGate_conjunction_spec_witness :
    (onPitchDetectedStep 62 dorian ⟨some 62, some 1000, resetSessionStats 0⟩ 65 1500).2
      = true :=
  (noteGate_conjunction_spec 62 dorian ⟨some 62, some 1000, resetSessionStats 0⟩ 65 1500
      (by norm_num) (fun l hl => by simp only [Option.some.injEq] at hl; omega)
      (fun t ht => by simp only [Option.some.injEq] at ht; omega)).1.mpr
    ⟨Or.inr ⟨1000, rfl, by norm_num⟩, Or.inr ⟨62, rfl, by decide⟩⟩

/-! ## Lemmas about the statistics accumulator -/

/-- For midi notes at least `root - 120`, the code's JavaScript-remainder
index equals the mathematical residue of the claim. -/
theorem tmod_interval_eq (m root : Int) (h : root - 120 ≤ m) :
    Int.tmod (m - root + 120) 12 = ((m - root) % 12 + 12) % 12 := by
  rw [Int.tmod_eq_emod (by omega) (by norm_num)]
  omega

/-- The computed distribution index lies in `[0, 11]`. -/
theorem tmod_interval_range (m root : Int) (h : root - 120 ≤ m) :
    0 ≤ Int.tmod (m - root + 120) 12 ∧ Int.tmod (m - root + 120) 12 < 12 := by
  rw [Int.tmod_eq_emod (by omega) (by norm_num)]
  omega

theorem sum_set_getD_succ :
    ∀ (l : List Nat) (n : Nat), n < l.length →
      (l.set n (l.getD n 0 + 1)).sum = l.sum + 1
  | [], n, h => by simp at h
  | a :: t, 0, _ => by simp; omega
  | a :: t, n + 1, h => by
    rw [List.getD_cons_succ, List.set_cons_succ, List.sum_cons, List.sum_cons,
      sum_set_getD_succ t n (by simpa using h)]
    omega

theorem incAt_sum (l : List Nat) (i : Int) (h0 : 0 ≤ i)
    (h : i.toNat < l.length) : (incAt l i).sum = l.sum + 1 := by
  unfold incAt
  rw [if_pos ⟨h0, h⟩]
  exact sum_set_getD_succ l i.toNat h

theorem incAt_length (l : List Nat) (i : Int) :
    (incAt l i).length = l.length := by
  unfold incAt
  split <;> simp

/-- The characteristic-count increment of `trackNote` (a `find?` over the
mode's intervals) agrees with the existential description of the claim,
for modes whose intervals carry distinct semitone values. -/
theorem find_characteristic_count (mode : ModeDef) (idx : Int)
    (hnodup : (mode.intervals.map (fun i => i.semitones)).Nodup) :
    (match mode.intervals.find? (fun i => i.semitones == idx) with
      | some i => if i.color = ToneColor.characteristic then 1 else 0
      | none => 0) =
    (if ∃ i ∈ mode.intervals, i.semitones = idx ∧
        i.color = ToneColor.characteristic then 1 else 0) := by
  cases hf : mode.intervals.find? (fun i => i.semitones == idx) with
  | none =>
    rw [if_neg]
    rintro ⟨j, hj, hjsem, -⟩
    exact absurd (by simpa using hjsem)
      (by simpa using List.find?_eq_none.mp hf j hj)
  | some i =>
    have hisem : i.semitones = idx := by simpa using List.find?_some hf
    have hmem : i ∈ mode.intervals := List.mem_of_find?_eq_some hf
    dsimp only
    by_cases hc : i.color = ToneColor.characteristic
    · rw [if_pos hc, if_pos ⟨i, hmem, hisem, hc⟩]
    · rw [if_neg hc, if_neg]
      rintro ⟨j, hj, hjsem, hjc⟩
      have : j = i :=
        List.inj_on_of_nodup_map hnodup hj hmem (by rw [hjsem, hisem])
      exact hc (this ▸ hjc)

/-- The avoid-count increment of `trackNote` (an `any` over the mode's
avoid notes) agrees with the existential description of the claim. -/
theorem any_avoid_count (mode : ModeDef) (idx : Int) :
    (if mode.avoidNotes.any (fun a => a.semitones == idx) then 1 else 0) =
    (if ∃ a ∈ mode.avoidNotes, a.semitones = idx then (1:Nat) else 0) := by
  by_cases h : ∃ a ∈ mode.avoidNotes, a.semitones = idx
  · rw [if_pos _, if_pos h]
    obtain ⟨a, ha, hsem⟩ := h
    exact List.any_eq_true.mpr ⟨a, ha, by simpa using hsem⟩
  · rw [if_neg _, if_neg h]
    intro hany
    obtain ⟨a, ha, hsem⟩ := List.any_eq_true.mp hany
    exact h ⟨a, ha, by simpa using hsem⟩

/-- C5: `trackNote` computes `intervalFromRoot = ((midiNote - rootMidi)
mod 12 + 12) mod 12` (for midi notes at least `rootMidi - 120`, which all
counted notes satisfy), increments exactly that distribution entry and
`totalNotes`, increments the characteristic count exactly when the mode
has an interval with that semitone value tagged characteristic, increments
the avoid count exactly when the mode's avoid list contains that value,
and realises the Dorian scenario of the specification. -/
theorem trackNote_spec (root : Int) (mode : ModeDef) (s : SessionStats)
    (m : Int) (hm : root - 120 ≤ m)
    (hnodup : (mode.intervals.map (fun i => i.semitones)).Nodup) :
    ((trackNote root mode s m).toneDistribution
        = incAt s.toneDistribution (((m - root) % 12 + 12) % 12) ∧
      (trackNote root mode s m).totalNotes = s.totalNotes + 1 ∧
      (trackNote root mode s m).characteristicToneCount
        = s.characteristicToneCount +
          (if ∃ i ∈ mode.intervals, i.semitones = ((m - root) % 12 + 12) % 12 ∧
              i.color = ToneColor.characteristic then 1 else 0) ∧
      (trackNote root mode s m).avoidToneCount
        = s.avoidToneCount +
          (if ∃ a ∈ mode.avoidNotes, a.semitones = ((m - root) % 12 + 12) % 12
            then 1 else 0)) ∧
    ((([62, 64, 71, 72, 71].foldl (trackNote 62 dorian)
        (resetSessionStats 0)).totalNotes = 5 ∧
      ([62, 64, 71, 72, 71].foldl (trackNote 62 dorian)
        (resetSessionStats 0)).characteristicToneCount = 3 ∧
      ([62, 64, 71, 72, 71].foldl (trackNote 62 dorian)
        (resetSessionStats 0)).toneDistribution
        = [1, 0, 1, 0, 0, 0, 0, 0, 0, 2, 1, 0])) := by
  refine ⟨?_, by decide, by decide, by decide⟩
  unfold trackNote
  dsimp only
  rw [tmod_interval_eq m root hm]
  refine ⟨rfl, rfl, ?_, ?_⟩
  · rw [find_characteristic_count mode _ hnodup]
  · rw [any_avoid_count mode _]

/-- Witness for `trackNote_spec`: counting midi 71 (interval 9, the
characteristic major sixth) from root 62 in Dorian. -/
theorem trackNote_spec_witness :
    (trackNote 62 dorian (resetSessionStats 0) 71).characteristicToneCount
      = (resetSessionStats 0).characteristicToneCount +
        (if ∃ i ∈ dorian.intervals, i.semitones = (((71:Int) - 62) % 12 + 12) % 12 ∧
            i.color = ToneColor.characteristic then 1 else 0) :=
  (trackNote_spec 62 dorian (resetSessionStats 0) 71 (by norm_num)
    (by decide)).1.2.2.1

/-- One `trackNote` step preserves well-formedness of the statistics:
a 12-entry distribution whose sum equals `totalNotes`. -/
theorem trackNote_preserves_wf (root : Int) (mode : ModeDef)
    (s : SessionStats) (m : Int) (hm : root - 120 ≤ m)
    (hlen : s.toneDistribution.length = 12)
    (hsum : s.toneDistribution.sum = s.totalNotes) :
    (trackNote root mode s m).toneDistribution.length = 12 ∧
    (trackNote root mode s m).toneDistribution.sum
      = (trackNote root mode s m).totalNotes := by
  obtain ⟨h0, h12⟩ := tmod_interval_range m root hm
  constructor
  · rw [show (trackNote root mode s m).toneDistribution
        = incAt s.toneDistribution (Int.tmod (m - root + 120) 12) from rfl,
      incAt_length, hlen]
  · rw [show (trackNote root mode s m).toneDistribution
        = incAt s.toneDistribution (Int.tmod (m - root + 120) 12) from rfl,
      show (trackNote root mode s m).totalNotes = s.totalNotes + 1 from rfl,
      incAt_sum _ _ h0 (by rw [hlen]; omega), hsum]

/-- C6: the invariant `sum(toneDistribution) = totalNotes` holds in the
reset state, is preserved by each counted note whose midi value is at
least `rootMidi - 120`, and therefore holds after any such sequence of
counted notes from the reset state. -/
theorem toneDistribution_sum_invariant :
    (∀ now : Int, (resetSessionStats now).toneDistribution.sum
        = (resetSessionStats now).totalNotes) ∧
    (∀ (root : Int) (mode : ModeDef) (s : SessionStats) (m : Int),
        root - 120 ≤ m → s.toneDistribution.length = 12 →
        s.toneDistribution.sum = s.totalNotes →
        (trackNote root mode s m).toneDistribution.sum
          = (trackNote root mode s m).totalNotes) ∧
    (∀ (root : Int) (mode : ModeDef) (now : Int) (ms : List Int),
        (∀ m ∈ ms, root - 120 ≤ m) →
        (ms.foldl (trackNote root mode) (resetSessionStats now)).toneDistribution.sum
          = (ms.foldl (trackNote root mode) (resetSessionStats now)).totalNotes) := by
  have haux : ∀ (root : Int) (mode : ModeDef) (ms : List Int) (s : SessionStats),
      (∀ m ∈ ms, root - 120 ≤ m) →
      s.toneDistribution.length = 12 →
      s.toneDistribution.sum = s.totalNotes →
      (ms.foldl (trackNote root mode) s).toneDistribution.length = 12 ∧
      (ms.foldl (trackNote root mode) s).toneDistribution.sum
        = (ms.foldl (trackNote root mode) s).totalNotes := by
    intro root mode ms
    induction ms with
    | nil => exact fun s _ hlen hsum => ⟨hlen, hsum⟩
    | cons m rest ih =>
      intro s hms hlen hsum
      obtain ⟨hlen2, hsum2⟩ := trackNote_preserves_wf root mode s m
        (hms m (List.mem_cons_self m rest)) hlen hsum
      exact ih (trackNote root mode s m)
        (fun x hx => hms x (List.mem_cons_of_mem m hx)) hlen2 hsum2
  refine ⟨fun now => by simp [resetSessionStats], ?_, ?_⟩
  · intro root mode s m hm hlen hsum
    exact (trackNote_preserves_wf root mode s m hm hlen hsum).2
  · intro root mode now ms hms
    exact (haux root mode ms (resetSessionStats now) hms
      (by simp [resetSessionStats]) (by simp [resetSessionStats])).2

/-- Witness for `toneDistribution_sum_invariant` on the concrete Dorian
scenario sequence. -/
theorem toneDistribution_sum_invariant_witness :
    (([62, 64, 71, 72, 71] : List Int).foldl (trackNote 62 dorian)
        (resetSessionStats 0)).toneDistribution.sum
      = (([62, 64, 71, 72, 71] : List Int).foldl (trackNote 62 dorian)
        (resetSessionStats 0)).totalNotes :=
  toneDistribution_sum_invariant.2.2 62 dorian 0 [62, 64, 71, 72, 71]
    (by intro m hm; fin_cases hm <;> norm_num)

/-- C8: when `totalNotes = 0`, the live statistics display leaves the
panel unchanged (`none`) and the session summary shows the no-notes
message; in neither case is any percentage computed. -/
theorem stats_no_data_spec (isPlaying : Bool) (s : SessionStats)
    (h : s.totalNotes = 0) :
    updateStatsDisplay isPlaying s = none ∧
    showSessionSummary s = SummaryOutput.noNotes := by
  constructor
  · unfold updateStatsDisplay
    rw [if_pos]
    simp [h]
  · unfold showSessionSummary
    rw [if_pos]
    simp [h]

/-- Witness for `stats_no_data_spec` on a freshly reset session. -/
theorem stats_no_data_spec_witness :
    updateStatsDisplay true (resetSessionStats 0) = none ∧
    showSessionSummary (resetSessionStats 0) = SummaryOutput.noNotes :=
  stats_no_data_spec true (resetSessionStats 0) rfl
